import Mathlib

/-!
Verification of the termchat server core against its specification.

The definitions below are a shallow embedding of the Go source:
* `internal/storage/store.go` — users, sessions, friendships, friend requests
  (SQL tables become lists of rows; `INSERT OR IGNORE` becomes a guarded
  append; a transaction that fails becomes an `Except` error carrying no new
  state).
* `internal/ratelimiter.go` — the sliding-window rate limiter.
* `internal/presence.go` — the per-user connection counter.
* `internal/server_room.go` — the room broadcast step, the read-pump frame
  processing and the per-client chat limiter `allowMessage`.
* `internal/client_model.go` — `authenticateRequest` and `HandleAddFriend`
  (found in the repository's handler file).

Go `time.Time` values are modelled as integers (comparisons `After`/`Before`
become `<`), byte slices as `List Nat`, and JSON marshalling of the
`ChatMessage` struct as the constructor `Payload.json` (marshalling the
struct is injective, and the read pump only ever re-serialises a struct it
just built, so no byte-level JSON model is needed).
-/

namespace Termchat

/-! ## Data model (storage/store.go) -/

/-- Row of the `users` table.  `password_hash` and `created_at` are omitted:
no operation modelled here reads them. -/
structure User where
  id : Int
  username : String
deriving DecidableEq, Repr

/-- Row of the `sessions` table. -/
structure Session where
  token : String
  userID : Int
  expiresAt : Int
  createdAt : Int
deriving DecidableEq, Repr

/-- The relational store: one list of rows per table.  `friendships` and
`friendRequests` hold `(user_id, friend_id)` / `(requester_id, receiver_id)`
pairs; both tables have those pairs as primary key, so well-formed states
have no duplicate rows. -/
structure DB where
  users : List User
  sessions : List Session
  friendships : List (Int × Int)
  friendRequests : List (Int × Int)
deriving DecidableEq, Repr

/-- Domain errors returned by the store.  `cannotFriendYourself` is the
`fmt.Errorf("cannot friend yourself")` of `AddFriendship`,
`selfFriendRequest` the `fmt.Errorf("cannot send a friend request to
yourself")` of `CreateFriendRequest`, `friendRequestExists` is
`ErrFriendRequestExists`, `noRows` is `sql.ErrNoRows`, `userExists` is
`ErrUserExists`.  Distinct Go error values are distinct constructors;
`errors.Is` distinguishes them exactly as constructor equality does. -/
inductive StoreErr where
  | cannotFriendYourself
  | selfFriendRequest
  | friendRequestExists
  | noRows
  | userExists
deriving DecidableEq, Repr

/-- The `INSERT OR IGNORE INTO friendships(user_id, friend_id) VALUES(a, b)`. -/
def insertOrIgnore (l : List (Int × Int)) (a b : Int) : List (Int × Int) :=
  if (a, b) ∈ l then l else l ++ [(a, b)]

/-- The `Store.AddFriendship` (store.go:208-228): reject self, then insert both
directed rows with `INSERT OR IGNORE` inside one transaction. -/
def AddFriendship (db : DB) (userID friendID : Int) : Except StoreErr DB :=
  if userID = friendID then .error .cannotFriendYourself
  else .ok { db with
    friendships := insertOrIgnore (insertOrIgnore db.friendships userID friendID) friendID userID }

/-- The `Store.AreFriends` (store.go:259-266): `COUNT(1)` over the single
directed row `(userID, friendID)`. -/
def AreFriends (db : DB) (userID friendID : Int) : Bool :=
  decide ((userID, friendID) ∈ db.friendships)

/-- The `Store.CreateFriendRequest` (store.go:269-306): reject self with a plain
error; return `ErrFriendRequestExists` when the directed friendship row or a
pending request in either direction exists; otherwise insert the single
pending row. -/
def CreateFriendRequest (db : DB) (requesterID receiverID : Int) : Except StoreErr DB :=
  if requesterID = receiverID then .error .selfFriendRequest
  else if (requesterID, receiverID) ∈ db.friendships then .error .friendRequestExists
  else if (requesterID, receiverID) ∈ db.friendRequests then .error .friendRequestExists
  else if (receiverID, requesterID) ∈ db.friendRequests then .error .friendRequestExists
  else .ok { db with friendRequests := db.friendRequests ++ [(requesterID, receiverID)] }

/-- The `Store.DeleteFriendRequest` (store.go:309-312). -/
def DeleteFriendRequest (db : DB) (requesterID receiverID : Int) : DB :=
  { db with friendRequests :=
      db.friendRequests.filter (fun p => !(p == (requesterID, receiverID))) }

/-- The `Store.AcceptFriendRequest` (store.go:363-391): inside one transaction,
delete the pending `(requester, receiver)` row; if no row was affected,
fail with `sql.ErrNoRows` (the transaction rolls back, so an error carries
no new state); otherwise insert both friendship rows with
`INSERT OR IGNORE`. -/
def AcceptFriendRequest (db : DB) (requesterID receiverID : Int) : Except StoreErr DB :=
  let remaining := db.friendRequests.filter (fun p => !(p == (requesterID, receiverID)))
  if remaining.length = db.friendRequests.length then .error .noRows
  else .ok { db with
    friendRequests := remaining,
    friendships := insertOrIgnore (insertOrIgnore db.friendships requesterID receiverID)
      receiverID requesterID }

example : AddFriendship ⟨[], [], [], []⟩ 1 2 =
    .ok ⟨[], [], [(1, 2), (2, 1)], []⟩ := rfl

example : CreateFriendRequest ⟨[], [], [], []⟩ 1 1 = .error .selfFriendRequest := rfl

example : AcceptFriendRequest ⟨[], [], [], [(1, 2)]⟩ 1 2 =
    .ok ⟨[], [], [(1, 2), (2, 1)], []⟩ := rfl

example : AcceptFriendRequest ⟨[], [], [], [(2, 1)]⟩ 1 2 = .error .noRows := rfl

/-! ## Rate limiter (ratelimiter.go)

The Go struct holds `limit` and `window` as fields fixed at construction
and a map `hits : map[string][]time.Time`; here the constant fields are
passed as parameters and the map is an association list (a missing key
reads as the empty slice, as a missing map key reads as `nil`). -/

/-- The body of `RateLimiter.Allow` acting on one key's slice
(ratelimiter.go:27-43): keep the timestamps strictly after
`now - window` (`ts.After(windowStart)`), refuse without recording when
the kept count has reached `limit`, otherwise append `now` and admit. -/
def allowSlice (limit : Nat) (window : Int) (slice : List Int) (now : Int) :
    Bool × List Int :=
  let pruned := slice.filter (fun ts => decide (now - window < ts))
  if limit ≤ pruned.length then (false, pruned)
  else (true, pruned ++ [now])

/-- The `r.hits[key]` — association-list read with `nil` default. -/
def getHits (hits : List (String × List Int)) (key : String) : List Int :=
  ((hits.find? (fun p => p.1 == key)).map Prod.snd).getD []

/-- The `r.hits[key] = slice` — write the slice back under `key`. -/
def setHits (hits : List (String × List Int)) (key : String) (slice : List Int) :
    List (String × List Int) :=
  if (hits.find? (fun p => p.1 == key)).isSome then
    hits.map (fun p => if p.1 == key then (key, slice) else p)
  else hits ++ [(key, slice)]

/-- The `RateLimiter.Allow` (ratelimiter.go:23-44): the slice for `key` is read,
pruned, possibly extended by `now`, and written back in every branch. -/
def Allow (limit : Nat) (window : Int) (hits : List (String × List Int))
    (key : String) (now : Int) : Bool × List (String × List Int) :=
  let res := allowSlice limit window (getHits hits key) now
  (res.1, setHits hits key res.2)

/-- The auth limiter is built as `NewRateLimiter(10, time.Minute)`
(client_model.go:493); times are in seconds. -/
def authRateLimitCount : Nat := 10

/-- One minute, in seconds. -/
def authRateLimitWindow : Int := 60

/-- The `rateLimitBurst = 5` (server_room.go:88). -/
def rateLimitBurst : Nat := 5

/-- The `rateLimitWindow = 3 * time.Second` (server_room.go:87), in seconds. -/
def rateLimitWindow : Int := 3

/-- The `Client.allowMessage` (server_room.go:177-192): the same sliding-window
algorithm inlined over `client.messageTimes` with the chat constants;
returns the admission verdict and the updated `messageTimes`. -/
def allowMessage (messageTimes : List Int) (now : Int) : Bool × List Int :=
  let cutoff := now - rateLimitWindow
  let kept := messageTimes.filter (fun ts => decide (cutoff < ts))
  if rateLimitBurst ≤ kept.length then (false, kept)
  else (true, kept ++ [now])

/-- Run a sequence of single-key `Allow` calls at the given times, starting
from `slice`; returns the times of the admitted calls. -/
def runAllowSlice (limit : Nat) (window : Int) : List Int → List Int → List Int
  | _, [] => []
  | slice, t :: ts =>
    let r := allowSlice limit window slice t
    (if r.1 then [t] else []) ++ runAllowSlice limit window r.2 ts

/-- Run a sequence of map-level `Allow` calls, each a `(key, time)` pair;
returns the `(key, time)` pairs of the admitted calls. -/
def runAllow (limit : Nat) (window : Int) :
    List (String × List Int) → List (String × Int) → List (String × Int)
  | _, [] => []
  | hits, (k, t) :: calls =>
    let r := Allow limit window hits k t
    (if r.1 then [(k, t)] else []) ++ runAllow limit window r.2 calls

/-- Times of the admitted calls for one key in a run of map-level calls. -/
def admissionsFor (limit : Nat) (window : Int) (hits : List (String × List Int))
    (calls : List (String × Int)) (key : String) : List Int :=
  ((runAllow limit window hits calls).filter (fun p => p.1 == key)).map Prod.snd

/-- Number of timestamps of `l` strictly inside the window `(T, T + w]`. -/
def countWin (T w : Int) (l : List Int) : Nat :=
  (l.filter (fun s => decide (T < s ∧ s ≤ T + w))).length

/-- Number of timestamps of `l` strictly greater than `c`. -/
def countGT (c : Int) (l : List Int) : Nat :=
  (l.filter (fun s => decide (c < s))).length

example : runAllowSlice 2 3 [] [1, 2, 3, 4, 10] = [1, 2, 4, 10] := by decide

example : runAllow 1 3 [] [("a", 1), ("b", 1), ("a", 2), ("a", 5)] =
    [("a", 1), ("b", 1), ("a", 5)] := by decide

/-! ## Presence tracker (presence.go)

The Go map `online : map[int64]int` becomes an association list with
unique keys along reachable states. -/

/-- The `p.online[userID]` as an optional value (a Go map read distinguishes
presence via the `ok` form used by `Decrement`). -/
def presenceLookup (online : List (Int × Int)) (userID : Int) : Option Int :=
  (online.find? (fun p => p.1 == userID)).map Prod.snd

/-- Replace the value stored under `userID`. -/
def presenceSet (online : List (Int × Int)) (userID : Int) (c : Int) :
    List (Int × Int) :=
  online.map (fun p => if p.1 == userID then (userID, c) else p)

/-- The `PresenceTracker.Increment` (presence.go:15-20): `online[userID]++`
(a missing key reads as 0) and return the new count. -/
def Increment (online : List (Int × Int)) (userID : Int) : Int × List (Int × Int) :=
  match presenceLookup online userID with
  | some c => (c + 1, presenceSet online userID (c + 1))
  | none => (1, online ++ [(userID, 1)])

/-- The `PresenceTracker.Decrement` (presence.go:22-34): delete the entry when
the count would reach zero; leave the tracker unchanged and return 0 when
no entry exists. -/
def Decrement (online : List (Int × Int)) (userID : Int) : Int × List (Int × Int) :=
  match presenceLookup online userID with
  | some c =>
    if c ≤ 1 then (0, online.filter (fun p => !(p.1 == userID)))
    else (c - 1, presenceSet online userID (c - 1))
  | none => (0, online)

/-- The `PresenceTracker.Online` (presence.go:36-40): `online[userID] > 0`,
a missing key reading as 0. -/
def Online (online : List (Int × Int)) (userID : Int) : Bool :=
  match presenceLookup online userID with
  | some c => decide (0 < c)
  | none => false

/-- One connect or disconnect event, as seen by the tracker. -/
inductive PresenceOp where
  | inc (userID : Int)
  | dec (userID : Int)
deriving DecidableEq, Repr

/-- Run a sequence of `Increment`/`Decrement` calls. -/
def runPresence : List (Int × Int) → List PresenceOp → List (Int × Int)
  | online, [] => online
  | online, .inc u :: ops => runPresence (Increment online u).2 ops
  | online, .dec u :: ops => runPresence (Decrement online u).2 ops

example : runPresence [] [.inc 1, .inc 1, .dec 1] = [(1, 1)] := by decide

example : runPresence [] [.inc 1, .dec 1, .dec 1] = [] := by decide

/-! ## Chat messages, room broadcast and the read pump (server_room.go) -/

/-- The `ChatMessage` JSON envelope (server.go): `room`, `user`, `body`
strings and `ts` unix seconds. -/
structure ChatMessage where
  room : String
  user : String
  body : String
  ts : Int
deriving DecidableEq, Repr

/-- A frame travelling through a room's broadcast channel: either the
serialisation of a `ChatMessage` the read pump just built (`json.Marshal`
of the struct, injective in the struct) or a client payload forwarded
verbatim. -/
inductive Payload where
  | json (msg : ChatMessage)
  | raw (bytes : List Nat)
deriving DecidableEq, Repr

/-- Outbound queue capacity: `send: make(chan []byte, 256)`
(server_room.go:95). -/
def sendQueueCap : Nat := 256

/-- A room member as the broadcast step sees it: its buffered `send`
channel. -/
structure Member where
  id : Nat
  sendQueue : List Payload
deriving DecidableEq, Repr

/-- The `broadcast` case of `Room.run` (server_room.go:55-67): for each
member, a non-blocking send (`select`/`default`) enqueues the payload when
the buffer has space; otherwise the member's channel is closed and the
member is removed.  Returns `(remaining members, evicted-and-closed
members)`; the step is a total function over the member set, never waiting
on any member. -/
def broadcastStep (payload : Payload) : List Member → List Member × List Member
  | [] => ([], [])
  | m :: rest =>
    let r := broadcastStep payload rest
    if m.sendQueue.length < sendQueueCap then
      ({ m with sendQueue := m.sendQueue ++ [payload] } :: r.1, r.2)
    else (r.1, m :: r.2)

/-- The per-frame state of a client's read pump: its sliding window of send
times and its authenticated username (set at construction from the
authentication context, server_room.go:91-101). -/
structure ClientState where
  messageTimes : List Int
  username : String
deriving DecidableEq, Repr

/-- What one read-pump loop iteration does with a frame. -/
inductive ReadAction where
  | broadcast (p : Payload)
  | rateLimited
deriving DecidableEq, Repr

/-- One iteration of the `readPump` loop over a received frame
(server_room.go:117-146), with `json.Unmarshal` into `ChatMessage`
abstracted as the `parse` parameter.  On a parsed message: consult
`allowMessage`; on admission default `ts` to `now` when zero, default
`room` to the client's room key when empty, overwrite `user` with the
authenticated username, re-serialise and broadcast.  On a parse failure:
consult `allowMessage`; on admission broadcast the raw payload verbatim.
Denied frames are dropped with a rate-limit notice to the sender only. -/
def readPumpStep (parse : List Nat → Option ChatMessage) (client : ClientState)
    (roomKey : String) (payload : List Nat) (now : Int) :
    ReadAction × ClientState :=
  match parse payload with
  | some msg =>
    let r := allowMessage client.messageTimes now
    if r.1 then
      let msg1 := if msg.ts = 0 then { msg with ts := now } else msg
      let msg2 := if msg1.room = "" then { msg1 with room := roomKey } else msg1
      (.broadcast (.json { msg2 with user := client.username }),
        { client with messageTimes := r.2 })
    else (.rateLimited, { client with messageTimes := r.2 })
  | none =>
    let r := allowMessage client.messageTimes now
    if r.1 then (.broadcast (.raw payload), { client with messageTimes := r.2 })
    else (.rateLimited, { client with messageTimes := r.2 })

example :
    (readPumpStep (fun _ => some ⟨"", "mallory", "hi", 0⟩) ⟨[], "alice"⟩ "R" [1] 9).1 =
      .broadcast (.json ⟨"R", "alice", "hi", 9⟩) := rfl

example :
    (readPumpStep (fun _ => none) ⟨[], "alice"⟩ "R" [7, 7] 9).1 =
      .broadcast (.raw [7, 7]) := rfl

/-! ## Authentication (client_model.go:535-568)

Go string helpers are re-implemented over character lists so that every
definition reduces by computation: `strings.SplitN(header, " ", 2)`,
`strings.EqualFold`, `strings.TrimSpace`, `strings.TrimPrefix`. -/

/-- Split a character list at the first space, if any. -/
def breakOnSpace : List Char → Option (List Char × List Char)
  | [] => none
  | c :: cs =>
    if c = ' ' then some ([], cs)
    else
      match breakOnSpace cs with
      | none => none
      | some (a, b) => some (c :: a, b)

/-- The `strings.SplitN(s, " ", 2)`: the whole string when it has no space,
otherwise the part before the first space and the remainder. -/
def splitN2space (s : String) : List String :=
  match breakOnSpace s.toList with
  | none => [s]
  | some (a, b) => [String.mk a, String.mk b]

/-- The `strings.EqualFold` restricted to simple case folding: the strings are
equal after lowering every character. -/
def equalFold (a b : String) : Bool :=
  a.toList.map Char.toLower == b.toList.map Char.toLower

/-- ASCII whitespace, the cases of `strings.TrimSpace` relevant here. -/
def isSpaceChar (c : Char) : Bool :=
  c = ' ' || c = '\t' || c = '\n' || c = '\r'

/-- The `strings.TrimSpace`: drop leading and trailing whitespace. -/
def trimSpace (s : String) : String :=
  String.mk (((s.toList.dropWhile isSpaceChar).reverse.dropWhile isSpaceChar).reverse)

/-- Drop `pre` from the front of `s` when it is a prefix, else `none`. -/
def dropPrefixChars : List Char → List Char → Option (List Char)
  | [], s => some s
  | _ :: _, [] => none
  | p :: ps, c :: cs => if p = c then dropPrefixChars ps cs else none

/-- The `strings.TrimPrefix(s, pre)`. -/
def trimPrefixStr (s pre : String) : String :=
  match dropPrefixChars pre.toList s.toList with
  | some rest => String.mk rest
  | none => s

example : splitN2space "Bearer a b" = ["Bearer", "a b"] := by decide

example : splitN2space "token" = ["token"] := by decide

example : equalFold "BeArEr" "bearer" = true := by decide

example : trimPrefixStr "/friends/Ann" "/friends/" = "Ann" := by decide

/-- The identity `authenticateRequest` resolves: the session's user id and
username plus the presented token. -/
structure AuthContext where
  userID : Int
  username : String
  token : String
deriving DecidableEq, Repr

/-- The only authentication failure the claims distinguish
(`errUnauthorized`; store I/O errors cannot arise in the pure model). -/
inductive AuthError where
  | unauthorized
deriving DecidableEq, Repr

/-- Header parsing prefix of `authenticateRequest`
(client_model.go:536-548): empty header, a header without exactly two
space-separated parts, a scheme other than `Bearer` (compared with
`strings.EqualFold`), and an empty trimmed token all fail; otherwise the
trimmed token is returned. -/
def bearerToken (header : String) : Option String :=
  if header = "" then none
  else
    match splitN2space header with
    | [scheme, rest] =>
      if equalFold scheme "Bearer" then
        let token := trimSpace rest
        if token = "" then none else some token
      else none
    | _ => none

/-- The `Store.GetSession` (store.go:189-199): row lookup by token primary
key. -/
def GetSession (db : DB) (token : String) : Option Session :=
  db.sessions.find? (fun s => s.token == token)

/-- The `Store.GetUserByID` (store.go:170-180). -/
def GetUserByID (db : DB) (id : Int) : Option User :=
  db.users.find? (fun u => u.id == id)

/-- The `Store.DeleteSession` (store.go:202-205). -/
def DeleteSession (db : DB) (token : String) : DB :=
  { db with sessions := db.sessions.filter (fun s => !(s.token == token)) }

/-- The `Server.authenticateRequest` (client_model.go:535-568): resolve the
bearer token, look up the session, delete it and fail when
`time.Now().After(session.ExpiresAt)` (that is, `expiresAt < now`), load
the user, and return the authentication context.  The store state is
returned alongside because the expired branch deletes the session row. -/
def authenticateRequest (db : DB) (header : String) (now : Int) :
    Except AuthError AuthContext × DB :=
  match bearerToken header with
  | none => (.error .unauthorized, db)
  | some token =>
    match GetSession db token with
    | none => (.error .unauthorized, db)
    | some sess =>
      if sess.expiresAt < now then (.error .unauthorized, DeleteSession db token)
      else
        match GetUserByID db sess.userID with
        | none => (.error .unauthorized, db)
        | some user => (.ok ⟨user.id, user.username, token⟩, db)

example :
    (authenticateRequest ⟨[⟨1, "alice"⟩], [⟨"t", 1, 5, 0⟩], [], []⟩ "Bearer t" 4).1 =
      .ok ⟨1, "alice", "t"⟩ := rfl

example :
    (authenticateRequest ⟨[⟨1, "alice"⟩], [⟨"t", 1, 5, 0⟩], [], []⟩ "Bearer t" 6).1 =
      .error .unauthorized := rfl

/-! ## HandleAddFriend (file_upload_test.go:347-385) -/

/-- The outcomes of `HandleAddFriend` after authentication succeeded. -/
inductive HandlerResult where
  | noContent204
  | badRequest (msg : String)
  | notFound404
  | internalError500
deriving DecidableEq, Repr

/-- The `Store.GetUserByUsername` (store.go:157-167): exact, case-sensitive
lookup. -/
def GetUserByUsername (db : DB) (username : String) : Option User :=
  db.users.find? (fun u => u.username == username)

/-- The username `HandleAddFriend` extracts from the request path:
`strings.TrimSpace(strings.TrimPrefix(path, "/friends/"))`. -/
def addFriendTarget (path : String) : String :=
  trimSpace (trimPrefixStr path "/friends/")

/-- The `Server.HandleAddFriend` (file_upload_test.go:347-385) after
authentication: 400 when the extracted username is empty; 400 "cannot add
yourself" when it equals the caller's username under `strings.EqualFold`;
404 when no user has exactly that name; otherwise `AddFriendship` and
204. -/
def HandleAddFriend (db : DB) (caller : AuthContext) (path : String) :
    HandlerResult × DB :=
  let username := addFriendTarget path
  if username = "" then (.badRequest "friend username required", db)
  else if equalFold username caller.username then (.badRequest "cannot add yourself", db)
  else
    match GetUserByUsername db username with
    | none => (.notFound404, db)
    | some friend =>
      match AddFriendship db caller.userID friend.id with
      | .ok db' => (.noContent204, db')
      | .error _ => (.internalError500, db)

example :
    HandleAddFriend ⟨[⟨1, "Alice"⟩, ⟨2, "alice"⟩], [], [], []⟩ ⟨2, "alice", "t"⟩
      "/friends/Alice" = (.badRequest "cannot add yourself", ⟨[⟨1, "Alice"⟩, ⟨2, "alice"⟩], [], [], []⟩) := rfl

example :
    HandleAddFriend ⟨[⟨1, "Bob"⟩, ⟨2, "alice"⟩], [], [], []⟩ ⟨2, "alice", "t"⟩
      "/friends/Bob" = (.noContent204, ⟨[⟨1, "Bob"⟩, ⟨2, "alice"⟩], [], [(2, 1), (1, 2)], []⟩) := rfl

/-- Number of copies of the row `x` in the table `l`. -/
def rowCount (x : Int × Int) (l : List (Int × Int)) : Nat :=
  (l.filter (fun p => p == x)).length

/-- Run a sequence of `Client.allowMessage` calls over the client's
`messageTimes` window, as successive read-pump iterations do; returns the
times of the admitted sends. -/
def runAllowMessage : List Int → List Int → List Int
  | _, [] => []
  | times, t :: ts =>
    let r := allowMessage times t
    (if r.1 then [t] else []) ++ runAllowMessage r.2 ts

/-! ## Helper lemmas about `insertOrIgnore` -/

lemma mem_insertOrIgnore_self (l : List (Int × Int)) (a b : Int) :
    (a, b) ∈ insertOrIgnore l a b := by
  unfold insertOrIgnore
  split
  · assumption
  · simp

lemma mem_insertOrIgnore_of_mem {l : List (Int × Int)} {x : Int × Int} (a b : Int)
    (h : x ∈ l) : x ∈ insertOrIgnore l a b := by
  unfold insertOrIgnore
  split
  · exact h
  · exact List.mem_append_left _ h

lemma insertOrIgnore_eq_of_mem {l : List (Int × Int)} {a b : Int}
    (h : (a, b) ∈ l) : insertOrIgnore l a b = l :=
  if_pos h

lemma rowCount_eq_zero_of_not_mem {x : Int × Int} {l : List (Int × Int)}
    (h : x ∉ l) : rowCount x l = 0 := by
  induction l with
  | nil => rfl
  | cons a t ih =>
    have hxa : ¬(a == x) = true := by
      simp only [beq_iff_eq]
      rintro rfl
      exact h (List.mem_cons_self _ _)
    have hxt : x ∉ t := fun hm => h (List.mem_cons_of_mem _ hm)
    simp only [rowCount, List.filter_cons, hxa, if_false, Bool.false_eq_true]
    exact ih hxt

lemma rowCount_eq_one_of_nodup_mem {x : Int × Int} {l : List (Int × Int)}
    (hnd : l.Nodup) (h : x ∈ l) : rowCount x l = 1 := by
  induction l with
  | nil => exact absurd h (List.not_mem_nil x)
  | cons a t ih =>
    rcases List.mem_cons.mp h with rfl | hm
    · have hnt : x ∉ t := (List.nodup_cons.mp hnd).1
      simp only [rowCount, List.filter_cons, beq_self_eq_true, if_true, List.length_cons]
      rw [show (List.filter (fun p => p == x) t).length = rowCount x t from rfl,
        rowCount_eq_zero_of_not_mem hnt]
    · have hax : ¬(a == x) = true := by
        simp only [beq_iff_eq]
        rintro rfl
        exact (List.nodup_cons.mp hnd).1 hm
      simp only [rowCount, List.filter_cons, hax, if_false, Bool.false_eq_true]
      exact ih (List.nodup_cons.mp hnd).2 hm

lemma rowCount_insertOrIgnore_self {l : List (Int × Int)} {a b : Int}
    (hnd : l.Nodup) : rowCount (a, b) (insertOrIgnore l a b) = 1 := by
  unfold insertOrIgnore
  split
  · exact rowCount_eq_one_of_nodup_mem hnd (by assumption)
  · have h0 : rowCount (a, b) l = 0 := rowCount_eq_zero_of_not_mem (by assumption)
    simp [rowCount, List.filter_append, h0, List.filter]
    simpa [rowCount] using h0

lemma rowCount_insertOrIgnore_other {l : List (Int × Int)} {a b : Int} (x : Int × Int)
    (hx : x ≠ (a, b)) : rowCount x (insertOrIgnore l a b) = rowCount x l := by
  unfold insertOrIgnore
  split
  · rfl
  · have : ¬((a, b) == x) = true := by
      simp only [beq_iff_eq]
      exact fun h => hx h.symm
    simp [rowCount, List.filter_append, List.filter, this]

/-- C7: `AddFriendship(a, b)` succeeds for `a ≠ b`, leaves both directed
rows present (symmetry), and running it twice from any state yields exactly
the state one run yields (idempotence); `AddFriendship(a, a)` fails with the
self-friendship error, and the failing transaction carries no state
change. -/
theorem addFriendship_idempotent_symmetric (db : DB) (a b : Int) :
    (a ≠ b → ∃ db', AddFriendship db a b = .ok db' ∧
      (a, b) ∈ db'.friendships ∧ (b, a) ∈ db'.friendships ∧
      AddFriendship db' a b = .ok db') ∧
    AddFriendship db a a = .error .cannotFriendYourself := by
  constructor
  · intro hne
    refine ⟨{ db with friendships := insertOrIgnore (insertOrIgnore db.friendships a b) b a }, ?_, ?_, ?_, ?_⟩
    · unfold AddFriendship
      rw [if_neg hne]
    · exact mem_insertOrIgnore_of_mem _ _ (mem_insertOrIgnore_self _ a b)
    · exact mem_insertOrIgnore_self _ b a
    · unfold AddFriendship
      rw [if_neg hne]
      have h1 : (a, b) ∈ insertOrIgnore (insertOrIgnore db.friendships a b) b a :=
        mem_insertOrIgnore_of_mem _ _ (mem_insertOrIgnore_self _ a b)
      have h2 : (b, a) ∈ insertOrIgnore (insertOrIgnore db.friendships a b) b a :=
        mem_insertOrIgnore_self _ b a
      simp only [insertOrIgnore_eq_of_mem h1, insertOrIgnore_eq_of_mem h2]
  · unfold AddFriendship
    rw [if_pos rfl]

/-- Witness for C7 at a concrete state. -/
theorem addFriendship_idempotent_symmetric_witness :
    ∃ db', AddFriendship ⟨[], [], [], []⟩ 1 2 = .ok db' ∧
      (1, 2) ∈ db'.friendships ∧ (2, 1) ∈ db'.friendships ∧
      AddFriendship db' 1 2 = .ok db' :=
  (addFriendship_idempotent_symmetric ⟨[], [], [], []⟩ 1 2).1 (by decide)

/-- C3 counterexample: `CreateFriendRequest(requester, requester)` does
fail, but with the plain "cannot send a friend request to yourself" error,
not with the `ErrFriendRequestExists` domain error the claim names (the
handler therefore answers 500, not 409, on a self request). -/
theorem createFriendRequest_self_error_counterexample :
    CreateFriendRequest ⟨[], [], [], []⟩ 1 1 = .error .selfFriendRequest ∧
    StoreErr.selfFriendRequest ≠ StoreErr.friendRequestExists :=
  ⟨rfl, by decide⟩

/-- C3 (amended): for `requester ≠ receiver` and a store whose friendship
relation is symmetric, `CreateFriendRequest` fails with
`ErrFriendRequestExists` exactly when a pending request exists in either
direction or a friendship connects the pair, and otherwise appends exactly
the one pending row; a self request fails with a distinct self-request
error instead. -/
theorem createFriendRequest_spec (db : DB) (r s : Int)
    (hsymm : ∀ a b : Int, (a, b) ∈ db.friendships → (b, a) ∈ db.friendships) :
    CreateFriendRequest db r r = .error .selfFriendRequest ∧
    (r ≠ s →
      ((CreateFriendRequest db r s = .error .friendRequestExists) ↔
        ((r, s) ∈ db.friendRequests ∨ (s, r) ∈ db.friendRequests ∨
         (r, s) ∈ db.friendships ∨ (s, r) ∈ db.friendships)) ∧
      (((r, s) ∉ db.friendRequests ∧ (s, r) ∉ db.friendRequests ∧
        (r, s) ∉ db.friendships) →
        CreateFriendRequest db r s =
          .ok { db with friendRequests := db.friendRequests ++ [(r, s)] })) := by
  refine ⟨?_, fun hne => ⟨?_, ?_⟩⟩
  · unfold CreateFriendRequest
    rw [if_pos rfl]
  · unfold CreateFriendRequest
    rw [if_neg hne]
    constructor
    · intro h
      by_cases h1 : (r, s) ∈ db.friendships
      · exact Or.inr (Or.inr (Or.inl h1))
      · rw [if_neg h1] at h
        by_cases h2 : (r, s) ∈ db.friendRequests
        · exact Or.inl h2
        · rw [if_neg h2] at h
          by_cases h3 : (s, r) ∈ db.friendRequests
          · exact Or.inr (Or.inl h3)
          · rw [if_neg h3] at h
            exact absurd h (by simp)
    · intro h
      by_cases h1 : (r, s) ∈ db.friendships
      · rw [if_pos h1]
      · rw [if_neg h1]
        rcases h with h | h | h | h
        · by_cases h2 : (r, s) ∈ db.friendRequests
          · rw [if_pos h2]
          · exact absurd h h2
        · by_cases h2 : (r, s) ∈ db.friendRequests
          · rw [if_pos h2]
          · rw [if_neg h2, if_pos h]
        · exact absurd h h1
        · exact absurd (hsymm _ _ h) h1
  · intro ⟨h1, h2, h3⟩
    unfold CreateFriendRequest
    rw [if_neg hne, if_neg h3, if_neg h1, if_neg h2]

/-- Witness for C3's amended theorem at a concrete state: a fresh request
between users 1 and 2 is inserted as the single pending row. -/
theorem createFriendRequest_spec_witness :
    CreateFriendRequest ⟨[], [], [], []⟩ 1 2 =
      .ok { users := [], sessions := [], friendships := [],
            friendRequests := [(1, 2)] } :=
  (((createFriendRequest_spec ⟨[], [], [], []⟩ 1 2 (by simp)).2
    (by decide)).2) (by simp)

/-- C4: on a store whose pending requests hold at most one direction per
pair (`(s, r)` absent) and whose friendship table has no duplicate rows,
accepting an existing pending request `(r, s)` succeeds in one transaction:
the pending row is deleted (so no pending request connects the pair in
either direction), each of the two symmetric friendship rows is present
exactly once, and no other table changes; accepting a missing request
fails with `sql.ErrNoRows` and, the transaction rolling back, changes no
state. -/
theorem acceptFriendRequest_spec (db : DB) (r s : Int)
    (hne : r ≠ s) (hnd : db.friendships.Nodup)
    (hnorev : (s, r) ∉ db.friendRequests) :
    ((r, s) ∈ db.friendRequests →
      ∃ db', AcceptFriendRequest db r s = .ok db' ∧
        db'.friendRequests = db.friendRequests.filter (fun p => !(p == (r, s))) ∧
        (r, s) ∉ db'.friendRequests ∧ (s, r) ∉ db'.friendRequests ∧
        rowCount (r, s) db'.friendships = 1 ∧ rowCount (s, r) db'.friendships = 1 ∧
        db'.users = db.users ∧ db'.sessions = db.sessions) ∧
    ((r, s) ∉ db.friendRequests → AcceptFriendRequest db r s = .error .noRows) := by
  constructor
  · intro hmem
    have hlt : (db.friendRequests.filter (fun p => !(p == (r, s)))).length <
        db.friendRequests.length :=
      List.length_filter_lt_length_iff_exists.mpr ⟨(r, s), hmem, by simp⟩
    refine ⟨{ db with friendRequests := db.friendRequests.filter (fun p => !(p == (r, s))), friendships := insertOrIgnore (insertOrIgnore db.friendships r s) s r }, ?_, rfl, ?_, ?_, ?_, ?_, rfl, rfl⟩
    · unfold AcceptFriendRequest
      rw [if_neg (Nat.ne_of_lt hlt)]
    · intro hin
      have := List.mem_filter.mp hin
      simp at this
    · intro hin
      exact hnorev (List.mem_filter.mp hin).1
    · have hsr : ((r : Int), (s : Int)) ≠ (s, r) := by
        intro h
        exact hne (congrArg Prod.fst h)
      rw [rowCount_insertOrIgnore_other _ hsr]
      exact rowCount_insertOrIgnore_self hnd
    · have hnd2 : (insertOrIgnore db.friendships r s).Nodup := by
        unfold insertOrIgnore
        split
        · exact hnd
        · simpa [List.nodup_append] using ⟨hnd, by assumption⟩
      exact rowCount_insertOrIgnore_self hnd2
  · intro hnotmem
    have heq : db.friendRequests.filter (fun p => !(p == (r, s))) = db.friendRequests :=
      List.filter_eq_self.mpr (fun a ha => by
        simp only [Bool.not_eq_true', beq_eq_false_iff_ne]
        rintro rfl
        exact hnotmem ha)
    unfold AcceptFriendRequest
    rw [heq, if_pos rfl]

/-- Witness for C4 at a concrete state holding the single pending request
`(1, 2)`. -/
theorem acceptFriendRequest_spec_witness :
    ∃ db', AcceptFriendRequest ⟨[], [], [], [(1, 2)]⟩ 1 2 = .ok db' ∧
      db'.friendRequests = [(1, 2)].filter (fun p => !(p == ((1 : Int), (2 : Int)))) ∧
      (1, 2) ∉ db'.friendRequests ∧ (2, 1) ∉ db'.friendRequests ∧
      rowCount (1, 2) db'.friendships = 1 ∧ rowCount (2, 1) db'.friendships = 1 ∧
      db'.users = [] ∧ db'.sessions = [] :=
  (acceptFriendRequest_spec ⟨[], [], [], [(1, 2)]⟩ 1 2 (by decide) (by decide)
    (by decide)).1 (by decide)

/-! ## Presence invariant -/

lemma presence_counts_increment {online : List (Int × Int)}
    (h : ∀ p ∈ online, 1 ≤ p.2) (u : Int) :
    ∀ p ∈ (Increment online u).2, 1 ≤ p.2 := by
  unfold Increment
  cases hl : presenceLookup online u with
  | none =>
    intro p hp
    rcases List.mem_append.mp hp with hp | hp
    · exact h p hp
    · simp at hp
      simp [hp]
  | some c =>
    have hc : 1 ≤ c := by
      unfold presenceLookup at hl
      cases hf : online.find? (fun p => p.1 == u) with
      | none => simp [hf] at hl
      | some q =>
        have hq : q ∈ online := List.mem_of_find?_eq_some hf
        simp [hf] at hl
        have := h q hq
        omega
    intro p hp
    simp only [presenceSet, List.mem_map] at hp
    obtain ⟨q, hq, hpq⟩ := hp
    by_cases hqu : (q.1 == u) = true
    · rw [if_pos hqu] at hpq
      rw [← hpq]
      omega
    · rw [if_neg (by simpa using hqu)] at hpq
      exact hpq ▸ h q hq

lemma presence_counts_decrement {online : List (Int × Int)}
    (h : ∀ p ∈ online, 1 ≤ p.2) (u : Int) :
    ∀ p ∈ (Decrement online u).2, 1 ≤ p.2 := by
  unfold Decrement
  cases hl : presenceLookup online u with
  | none => exact h
  | some c =>
    by_cases hc : c ≤ 1
    · simp only [hc, if_true]
      intro p hp
      exact h p (List.mem_filter.mp hp).1
    · simp only [hc, if_false]
      intro p hp
      simp only [presenceSet, List.mem_map] at hp
      obtain ⟨q, hq, hpq⟩ := hp
      by_cases hqu : (q.1 == u) = true
      · rw [if_pos hqu] at hpq
        rw [← hpq]
        simp only
        omega
      · rw [if_neg (by simpa using hqu)] at hpq
        exact hpq ▸ h q hq

lemma presence_counts_run {online : List (Int × Int)} (ops : List PresenceOp)
    (h : ∀ p ∈ online, 1 ≤ p.2) :
    ∀ p ∈ runPresence online ops, 1 ≤ p.2 := by
  induction ops generalizing online with
  | nil => exact h
  | cons op ops ih =>
    cases op with
    | inc u => exact ih (presence_counts_increment h u)
    | dec u => exact ih (presence_counts_decrement h u)

/-- C9: starting from the empty tracker, after any sequence of
`Increment`/`Decrement` calls every stored per-user count is at least 1
(an entry reaching zero is deleted instead of kept), so `Online(u)` holds
exactly when an entry for `u` exists; and `Decrement` on a user with no
entry returns 0 and leaves the tracker unchanged. -/
theorem presence_spec (ops : List PresenceOp) :
    (∀ p ∈ runPresence [] ops, 1 ≤ p.2) ∧
    (∀ u, Online (runPresence [] ops) u = true ↔
      presenceLookup (runPresence [] ops) u ≠ none) ∧
    (∀ (online : List (Int × Int)) (u : Int),
      presenceLookup online u = none → Decrement online u = (0, online)) := by
  have hinv : ∀ p ∈ runPresence [] ops, 1 ≤ p.2 :=
    presence_counts_run ops (by simp)
  refine ⟨hinv, ?_, ?_⟩
  · intro u
    unfold Online
    cases hl : presenceLookup (runPresence [] ops) u with
    | none => simp
    | some c =>
      have hc : 1 ≤ c := by
        unfold presenceLookup at hl
        cases hf : (runPresence [] ops).find? (fun p => p.1 == u) with
        | none => simp [hf] at hl
        | some q =>
          have hq := List.mem_of_find?_eq_some hf
          simp [hf] at hl
          have := hinv q hq
          omega
      simp only [ne_eq, reduceCtorEq, not_false_eq_true, iff_true, decide_eq_true_eq]
      omega
  · intro online u hl
    unfold Decrement
    rw [hl]

/-- Witness for C9 at a concrete run (two connects and one disconnect of
user 1): its parts are instantiated at user 1 and at the empty tracker. -/
theorem presence_spec_witness :
    (∀ p ∈ runPresence [] [.inc 1, .inc 1, .dec 1], 1 ≤ p.2) ∧
    (Online (runPresence [] [.inc 1, .inc 1, .dec 1]) 1 = true ↔
      presenceLookup (runPresence [] [.inc 1, .inc 1, .dec 1]) 1 ≠ none) ∧
    Decrement [] 2 = (0, []) :=
  ⟨(presence_spec [.inc 1, .inc 1, .dec 1]).1,
   (presence_spec [.inc 1, .inc 1, .dec 1]).2.1 1,
   (presence_spec []).2.2 [] 2 rfl⟩

/-! ## Broadcast fan-out -/

lemma broadcastStep_mem (payload : Payload) (members : List Member) :
    ∀ m ∈ members,
      (m.sendQueue.length < sendQueueCap →
        { m with sendQueue := m.sendQueue ++ [payload] } ∈ (broadcastStep payload members).1) ∧
      (sendQueueCap ≤ m.sendQueue.length → m ∈ (broadcastStep payload members).2) := by
  induction members with
  | nil => intro m hm; exact absurd hm (List.not_mem_nil m)
  | cons a rest ih =>
    intro m hm
    rcases List.mem_cons.mp hm with rfl | hm
    · constructor
      · intro hlt
        simp only [broadcastStep, if_pos hlt]
        exact List.mem_cons_self _ _
      · intro hge
        simp only [broadcastStep, if_neg (Nat.not_lt.mpr hge)]
        exact List.mem_cons_self _ _
    · constructor
      · intro hlt
        by_cases ha : a.sendQueue.length < sendQueueCap
        · simp only [broadcastStep, if_pos ha]
          exact List.mem_cons_of_mem _ (((ih m hm).1) hlt)
        · simp only [broadcastStep, if_neg ha]
          exact ((ih m hm).1) hlt
      · intro hge
        by_cases ha : a.sendQueue.length < sendQueueCap
        · simp only [broadcastStep, if_pos ha]
          exact ((ih m hm).2) hge
        · simp only [broadcastStep, if_neg ha]
          exact List.mem_cons_of_mem _ (((ih m hm).2) hge)

lemma broadcastStep_kept_received (payload : Payload) (members : List Member) :
    ∀ m ∈ (broadcastStep payload members).1, payload ∈ m.sendQueue := by
  induction members with
  | nil => intro m hm; exact absurd hm (List.not_mem_nil m)
  | cons a rest ih =>
    intro m hm
    by_cases ha : a.sendQueue.length < sendQueueCap
    · simp only [broadcastStep, if_pos ha] at hm
      rcases List.mem_cons.mp hm with rfl | hm
      · simp
      · exact ih m hm
    · simp only [broadcastStep, if_neg ha] at hm
      exact ih m hm

lemma broadcastStep_evicted_full (payload : Payload) (members : List Member) :
    ∀ m ∈ (broadcastStep payload members).2, sendQueueCap ≤ m.sendQueue.length := by
  induction members with
  | nil => intro m hm; exact absurd hm (List.not_mem_nil m)
  | cons a rest ih =>
    intro m hm
    by_cases ha : a.sendQueue.length < sendQueueCap
    · simp only [broadcastStep, if_pos ha] at hm
      exact ih m hm
    · simp only [broadcastStep, if_neg ha] at hm
      rcases List.mem_cons.mp hm with rfl | hm
      · exact Nat.not_lt.mp ha
      · exact ih m hm

lemma broadcastStep_length (payload : Payload) (members : List Member) :
    (broadcastStep payload members).1.length + (broadcastStep payload members).2.length
      = members.length := by
  induction members with
  | nil => rfl
  | cons a rest ih =>
    by_cases ha : a.sendQueue.length < sendQueueCap
    · simp only [broadcastStep, if_pos ha, List.length_cons]
      omega
    · simp only [broadcastStep, if_neg ha, List.length_cons]
      omega

/-- C6: one broadcast delivery step of `Room.run` handles every current
member by a non-blocking enqueue attempt (the step is a total function of
the member set — it waits on no one, and remaining plus evicted members
account for the whole set): a member with queue space stays, with the
payload appended to its queue; a member whose queue is full is removed and
closed; every member remaining after the step has received the payload;
and only members with full queues are evicted. -/
theorem room_broadcast_step_spec (payload : Payload) (members : List Member) :
    (∀ m ∈ members,
      (m.sendQueue.length < sendQueueCap →
        { m with sendQueue := m.sendQueue ++ [payload] } ∈ (broadcastStep payload members).1) ∧
      (sendQueueCap ≤ m.sendQueue.length → m ∈ (broadcastStep payload members).2)) ∧
    (∀ m ∈ (broadcastStep payload members).1, payload ∈ m.sendQueue) ∧
    (∀ m ∈ (broadcastStep payload members).2, sendQueueCap ≤ m.sendQueue.length) ∧
    (broadcastStep payload members).1.length + (broadcastStep payload members).2.length
      = members.length :=
  ⟨broadcastStep_mem payload members, broadcastStep_kept_received payload members,
   broadcastStep_evicted_full payload members, broadcastStep_length payload members⟩

/-- Witness for C6 on a two-member room, one member with queue space and
one with a full queue: the first stays and receives the payload, the
second is evicted. -/
theorem room_broadcast_step_spec_witness :
    { id := 1, sendQueue := ([] : List Payload) ++ [Payload.raw [0]] } ∈
      (broadcastStep (.raw [0]) [⟨1, []⟩, ⟨2, List.replicate 256 (.raw [])⟩]).1 ∧
    (⟨2, List.replicate 256 (.raw [])⟩ : Member) ∈
      (broadcastStep (.raw [0]) [⟨1, []⟩, ⟨2, List.replicate 256 (.raw [])⟩]).2 :=
  ⟨((room_broadcast_step_spec (.raw [0]) [⟨1, []⟩, ⟨2, List.replicate 256 (.raw [])⟩]).1
      ⟨1, []⟩ (List.mem_cons_self _ _)).1 (by decide),
   ((room_broadcast_step_spec (.raw [0]) [⟨1, []⟩, ⟨2, List.replicate 256 (.raw [])⟩]).1
      ⟨2, List.replicate 256 (.raw [])⟩
      (List.mem_cons_of_mem _ (List.mem_cons_self _ _))).2
      (by rw [List.length_replicate]; exact Nat.le_refl 256)⟩

/-! ## Read-pump forwarding -/

/-- C1: whatever frame a client submits and whatever `user` value that
frame claims, every structured message the read pump hands to the room's
broadcast channel carries the client's authenticated username in its
`user` field — the claim is quantified over every parse function, so over
every claimed `user`. -/
theorem broadcast_user_is_authenticated (parse : List Nat → Option ChatMessage)
    (client : ClientState) (roomKey : String) (payload : List Nat) (now : Int)
    (msg : ChatMessage)
    (h : (readPumpStep parse client roomKey payload now).1 = .broadcast (.json msg)) :
    msg.user = client.username := by
  unfold readPumpStep at h
  cases hp : parse payload with
  | none =>
    rw [hp] at h
    by_cases hal : (allowMessage client.messageTimes now).1 <;> simp [hal] at h
  | some m =>
    rw [hp] at h
    by_cases hal : (allowMessage client.messageTimes now).1
    · simp only [hal, if_true] at h
      have := (ReadAction.broadcast.injEq _ _).mp h
      have := (Payload.json.injEq _ _).mp this
      rw [← this]
    · simp [hal] at h

/-- Witness for C1: a frame claiming `user = "mallory"` is broadcast with
`user = "alice"`, the authenticated name. -/
theorem broadcast_user_is_authenticated_witness :
    ("alice" : String) = "alice" :=
  broadcast_user_is_authenticated (fun _ => some ⟨"R", "mallory", "hi", 5⟩)
    ⟨[], "alice"⟩ "R" [1] 9 ⟨"R", "alice", "hi", 5⟩ rfl

/-- C8: when the per-client limiter admits the frame, a frame parsing as a
`ChatMessage` is forwarded as the re-serialised message whose `user` is the
authenticated username, whose `ts` defaults to `now` exactly when the
submitted `ts` was zero, and whose `room` defaults to the client's room key
exactly when the submitted `room` was empty; a frame that does not parse is
forwarded to the broadcast channel verbatim. -/
theorem readPump_forwarding (parse : List Nat → Option ChatMessage)
    (client : ClientState) (roomKey : String) (payload : List Nat) (now : Int) :
    (∀ msg, parse payload = some msg →
      (allowMessage client.messageTimes now).1 = true →
      (readPumpStep parse client roomKey payload now).1 =
        .broadcast (.json
          { room := if msg.room = "" then roomKey else msg.room,
            user := client.username,
            body := msg.body,
            ts := if msg.ts = 0 then now else msg.ts })) ∧
    (parse payload = none →
      (allowMessage client.messageTimes now).1 = true →
      (readPumpStep parse client roomKey payload now).1 = .broadcast (.raw payload)) := by
  constructor
  · intro msg hp hal
    by_cases hts : msg.ts = 0 <;> by_cases hroom : msg.room = "" <;>
      simp [readPumpStep, hp, hal, hts, hroom]
  · intro hp hal
    simp [readPumpStep, hp, hal]

/-- Witness for C8: a parsed frame with zero `ts` and empty `room` gets
both defaulted and its `user` rewritten; an unparseable frame is forwarded
raw. -/
theorem readPump_forwarding_witness :
    (readPumpStep (fun _ => some ⟨"", "mallory", "hi", 0⟩) ⟨[], "alice"⟩ "R" [1] 9).1 =
      .broadcast (.json { room := if ("" : String) = "" then "R" else "",
                          user := "alice", body := "hi",
                          ts := if (0 : Int) = 0 then 9 else 0 }) ∧
    (readPumpStep (fun _ => none) ⟨[], "alice"⟩ "R" [7] 9).1 = .broadcast (.raw [7]) :=
  ⟨(readPump_forwarding (fun _ => some ⟨"", "mallory", "hi", 0⟩) ⟨[], "alice"⟩ "R" [1] 9).1
      ⟨"", "mallory", "hi", 0⟩ rfl rfl,
   (readPump_forwarding (fun _ => none) ⟨[], "alice"⟩ "R" [7] 9).2 rfl rfl⟩

/-! ## HandleAddFriend case-insensitive self check -/

/-- C10: whenever the username extracted from the `/friends/{username}`
path equals the caller's authenticated username under the case-insensitive
`strings.EqualFold` comparison (and is non-empty), `HandleAddFriend`
answers 400 "cannot add yourself" and leaves the store untouched — for
every store, including one that contains a distinct user bearing exactly
that differently-cased name, who therefore can never be added by this
caller. -/
theorem handleAddFriend_case_insensitive_self (db : DB) (caller : AuthContext)
    (path : String)
    (hne : addFriendTarget path ≠ "")
    (hfold : equalFold (addFriendTarget path) caller.username = true) :
    HandleAddFriend db caller path = (.badRequest "cannot add yourself", db) := by
  unfold HandleAddFriend
  rw [if_neg hne, if_pos hfold]

/-- Witness for C10: the store contains the distinct user `"Alice"`
(user 1), the caller is `"alice"` (user 2), and `POST /friends/Alice`
is rejected with 400 "cannot add yourself", the store unchanged. -/
theorem handleAddFriend_case_insensitive_self_witness :
    HandleAddFriend ⟨[⟨1, "Alice"⟩, ⟨2, "alice"⟩], [], [], []⟩ ⟨2, "alice", "t"⟩
      "/friends/Alice" =
      (.badRequest "cannot add yourself", ⟨[⟨1, "Alice"⟩, ⟨2, "alice"⟩], [], [], []⟩) :=
  handleAddFriend_case_insensitive_self ⟨[⟨1, "Alice"⟩, ⟨2, "alice"⟩], [], [], []⟩
    ⟨2, "alice", "t"⟩ "/friends/Alice" (by decide) (by decide)

/-! ## Authentication -/

/-- C2 counterexample: the code tests `time.Now().After(session.ExpiresAt)`,
so at the boundary instant `now = expires_at` the session is still
accepted — `authenticateRequest` returns an authenticated context although
`expires_at > now` fails, refuting the claim's strict-inequality acceptance
condition. -/
theorem authenticateRequest_boundary_counterexample :
    (authenticateRequest ⟨[⟨1, "alice"⟩], [⟨"t", 1, 5, 0⟩], [], []⟩ "Bearer t" 5).1 =
      .ok ⟨1, "alice", "t"⟩ ∧ ¬ ((5 : Int) > 5) :=
  ⟨rfl, by decide⟩

/-- C2 (amended): `authenticateRequest` returns an authenticated context
only when the header resolves to a well-formed `Bearer <token>`, the
session row for that token exists, the session is not strictly expired
(`expires_at ≥ now`; the code accepts the boundary instant
`expires_at = now`), and the session's user exists — and the context then
carries that user's identity and the token.  A missing or malformed
header, an unknown token, and an expired token each yield `Unauthorized`
with the store unchanged, except that an expired session row is deleted
during that failing lookup. -/
theorem authenticateRequest_spec (db : DB) (header : String) (now : Int) :
    (∀ ctx, (authenticateRequest db header now).1 = .ok ctx →
      ∃ token, bearerToken header = some token ∧ ctx.token = token ∧
        ∃ sess, GetSession db token = some sess ∧ now ≤ sess.expiresAt ∧
          ∃ u, GetUserByID db sess.userID = some u ∧
            ctx.userID = u.id ∧ ctx.username = u.username) ∧
    (bearerToken header = none →
      authenticateRequest db header now = (.error .unauthorized, db)) ∧
    (∀ token, bearerToken header = some token → GetSession db token = none →
      authenticateRequest db header now = (.error .unauthorized, db)) ∧
    (∀ token sess, bearerToken header = some token →
      GetSession db token = some sess → sess.expiresAt < now →
      authenticateRequest db header now =
        (.error .unauthorized, DeleteSession db token)) := by
  refine ⟨?_, ?_, ?_, ?_⟩
  · intro ctx h
    unfold authenticateRequest at h
    cases hb : bearerToken header with
    | none => simp only [hb] at h; exact absurd h (by simp)
    | some token =>
      simp only [hb] at h
      cases hs : GetSession db token with
      | none => simp only [hs] at h; exact absurd h (by simp)
      | some sess =>
        simp only [hs] at h
        by_cases hexp : sess.expiresAt < now
        · simp only [if_pos hexp] at h
          exact absurd h (by simp)
        · simp only [if_neg hexp] at h
          cases hu : GetUserByID db sess.userID with
          | none =>
            simp only [hu] at h
            exact absurd h (by simp)
          | some u =>
            simp only [hu] at h
            have hctx : AuthContext.mk u.id u.username token = ctx := by simpa using h
            refine ⟨token, rfl, by rw [← hctx], sess, hs, Int.not_lt.mp hexp, u, hu, ?_, ?_⟩
            · rw [← hctx]
            · rw [← hctx]
  · intro hb
    unfold authenticateRequest
    simp only [hb]
  · intro token hb hs
    unfold authenticateRequest
    simp only [hb, hs]
  · intro token sess hb hs hexp
    unfold authenticateRequest
    simp only [hb, hs, if_pos hexp]

/-- Witness for C2's amended theorem: a valid bearer header with an
unexpired session for user 1 authenticates as `"alice"`, and the expired
variant of the same state yields `Unauthorized` with the session row
deleted. -/
theorem authenticateRequest_spec_witness :
    (∃ token, bearerToken "Bearer t" = some token ∧
      (AuthContext.mk 1 "alice" "t").token = token ∧
      ∃ sess, GetSession ⟨[⟨1, "alice"⟩], [⟨"t", 1, 5, 0⟩], [], []⟩ token = some sess ∧
        (4 : Int) ≤ sess.expiresAt ∧
        ∃ u, GetUserByID ⟨[⟨1, "alice"⟩], [⟨"t", 1, 5, 0⟩], [], []⟩ sess.userID = some u ∧
          (AuthContext.mk 1 "alice" "t").userID = u.id ∧
          (AuthContext.mk 1 "alice" "t").username = u.username) ∧
    authenticateRequest ⟨[⟨1, "alice"⟩], [⟨"t", 1, 5, 0⟩], [], []⟩ "Bearer t" 9 =
      (.error .unauthorized, DeleteSession ⟨[⟨1, "alice"⟩], [⟨"t", 1, 5, 0⟩], [], []⟩ "t") :=
  ⟨(authenticateRequest_spec ⟨[⟨1, "alice"⟩], [⟨"t", 1, 5, 0⟩], [], []⟩ "Bearer t" 4).1
      ⟨1, "alice", "t"⟩ rfl,
   (authenticateRequest_spec ⟨[⟨1, "alice"⟩], [⟨"t", 1, 5, 0⟩], [], []⟩ "Bearer t" 9).2.2.2
      "t" ⟨"t", 1, 5, 0⟩ rfl rfl (by decide)⟩

/-! ## Rate-limiter counting lemmas -/

lemma countGT_cons (c a : Int) (l : List Int) :
    countGT c (a :: l) = (if c < a then 1 else 0) + countGT c l := by
  by_cases h : c < a <;> simp [countGT, List.filter_cons, h] <;> omega

lemma countWin_cons (T w a : Int) (l : List Int) :
    countWin T w (a :: l) = (if T < a ∧ a ≤ T + w then 1 else 0) + countWin T w l := by
  by_cases h : T < a ∧ a ≤ T + w <;> simp [countWin, List.filter_cons, h] <;> omega

lemma countGT_append_single (c t : Int) (l : List Int) :
    countGT c (l ++ [t]) = countGT c l + (if c < t then 1 else 0) := by
  induction l with
  | nil => rw [List.nil_append, countGT_cons]; exact Nat.add_comm _ _
  | cons a l ih => rw [List.cons_append, countGT_cons, countGT_cons, ih]; omega

lemma countWin_append_single (T w t : Int) (l : List Int) :
    countWin T w (l ++ [t]) = countWin T w l + (if T < t ∧ t ≤ T + w then 1 else 0) := by
  induction l with
  | nil => rw [List.nil_append, countWin_cons]; exact Nat.add_comm _ _
  | cons a l ih => rw [List.cons_append, countWin_cons, countWin_cons, ih]; omega

lemma countWin_le_countGT (T w : Int) (l : List Int) :
    countWin T w l ≤ countGT T l := by
  induction l with
  | nil => exact Nat.le_refl 0
  | cons a l ih =>
    rw [countWin_cons, countGT_cons]
    by_cases h1 : T < a ∧ a ≤ T + w
    · rw [if_pos h1, if_pos h1.1]; omega
    · rw [if_neg h1]
      by_cases h2 : T < a <;> simp [h2] <;> omega

lemma countGT_le_length (c : Int) (l : List Int) : countGT c l ≤ l.length :=
  List.length_filter_le _ _

lemma countGT_filter_prune {c cutoff : Int} (h : cutoff ≤ c) (l : List Int) :
    countGT c (l.filter (fun s => decide (cutoff < s))) = countGT c l := by
  induction l with
  | nil => rfl
  | cons a l ih =>
    by_cases h1 : cutoff < a
    · rw [List.filter_cons, if_pos (by simpa using h1), countGT_cons, countGT_cons, ih]
    · have h2 : ¬ c < a := fun hc => h1 (lt_of_le_of_lt h hc)
      rw [List.filter_cons, if_neg (by simpa using h1), countGT_cons, if_neg h2, ih]
      omega

/-! ## Rate-limiter step lemmas -/

lemma allowSlice_denied {limit : Nat} {window : Int} {slice : List Int} {now : Int}
    (h : limit ≤ (slice.filter (fun s => decide (now - window < s))).length) :
    allowSlice limit window slice now =
      (false, slice.filter (fun s => decide (now - window < s))) := by
  simp only [allowSlice]
  rw [if_pos h]

lemma allowSlice_admitted {limit : Nat} {window : Int} {slice : List Int} {now : Int}
    (h : (slice.filter (fun s => decide (now - window < s))).length < limit) :
    allowSlice limit window slice now =
      (true, slice.filter (fun s => decide (now - window < s)) ++ [now]) := by
  simp only [allowSlice]
  rw [if_neg (Nat.not_le.mpr h)]

lemma runAllowSlice_cons (limit : Nat) (window : Int) (slice : List Int) (t : Int)
    (ts : List Int) :
    runAllowSlice limit window slice (t :: ts) =
      (if (allowSlice limit window slice t).1 then [t] else []) ++
        runAllowSlice limit window (allowSlice limit window slice t).2 ts := by
  simp only [runAllowSlice]

/-- The heart of the sliding-window law.  `prior` collects the admissions
made so far; the invariant says every admission still inside any window
reaching past `b` (the last call time) is still recorded in the stored
slice, so the length test at each later call bounds the admissions. -/
lemma runAllowSlice_window_aux (limit : Nat) (window T : Int) :
    ∀ (ts slice prior : List Int) (b : Int),
      List.Chain' (· ≤ ·) (b :: ts) →
      (∀ c : Int, b - window ≤ c → countGT c prior ≤ countGT c slice) →
      countWin T window prior ≤ limit →
      countWin T window (prior ++ runAllowSlice limit window slice ts) ≤ limit := by
  intro ts
  induction ts with
  | nil =>
    intro slice prior b _ _ hwin
    simpa [runAllowSlice] using hwin
  | cons t ts ih =>
    intro slice prior b hchain hinv hwin
    have hbt : b ≤ t := (List.chain'_cons.mp hchain).1
    have hchain' : List.Chain' (· ≤ ·) (t :: ts) := (List.chain'_cons.mp hchain).2
    have hinv' : ∀ c : Int, t - window ≤ c →
        countGT c prior ≤ countGT c (slice.filter (fun s => decide (t - window < s))) := by
      intro c hc
      rw [countGT_filter_prune hc]
      exact hinv c (by omega)
    by_cases hadmit : limit ≤ (slice.filter (fun s => decide (t - window < s))).length
    · rw [runAllowSlice_cons, allowSlice_denied hadmit]
      simp only [List.nil_append, Bool.false_eq_true, if_false]
      exact ih _ prior t hchain' hinv' hwin
    · have hlen := Nat.not_le.mp hadmit
      rw [runAllowSlice_cons, allowSlice_admitted hlen]
      simp only [if_true]
      rw [show prior ++ ([t] ++ runAllowSlice limit window
          (slice.filter (fun s => decide (t - window < s)) ++ [t]) ts) =
        (prior ++ [t]) ++ runAllowSlice limit window
          (slice.filter (fun s => decide (t - window < s)) ++ [t]) ts by simp]
      apply ih _ (prior ++ [t]) t hchain'
      · intro c hc
        rw [countGT_append_single, countGT_append_single]
        have := hinv' c hc
        by_cases hct : c < t <;> simp [hct] <;> omega
      · rw [countWin_append_single]
        by_cases hint : T < t ∧ t ≤ T + window
        · rw [if_pos hint]
          have hTw : t - window ≤ T := by omega
          have h1 := countWin_le_countGT T window prior
          have h2 := hinv' T hTw
          have h3 := countGT_le_length T (slice.filter (fun s => decide (t - window < s)))
          omega
        · rw [if_neg hint]
          omega

/-- The sliding-window law for a single key's run from the empty slice. -/
lemma runAllowSlice_window_law (limit : Nat) (window T : Int) (ts : List Int)
    (hmono : List.Chain' (· ≤ ·) ts) :
    countWin T window (runAllowSlice limit window [] ts) ≤ limit := by
  cases ts with
  | nil => simpa [runAllowSlice, countWin] using Nat.zero_le limit
  | cons t ts' =>
    have h := runAllowSlice_window_aux limit window T (t :: ts') [] [] t
      (List.chain'_cons.mpr ⟨le_refl t, hmono⟩)
      (fun c _ => Nat.le_refl _)
      (by simpa [countWin] using Nat.zero_le limit)
    simpa using h

/-! ## Map-level `Allow`: reduction to the single-key run -/

lemma getHits_cons_ne {a : String × List Int} {hits : List (String × List Int)}
    {key : String} (h : (a.1 == key) = false) :
    getHits (a :: hits) key = getHits hits key := by
  simp only [getHits, List.find?, h]

lemma getHits_cons_eq {a : String × List Int} {hits : List (String × List Int)}
    {key : String} (h : (a.1 == key) = true) :
    getHits (a :: hits) key = a.2 := by
  simp only [getHits, List.find?, h]
  rfl

lemma setHits_cons_ne {a : String × List Int} {hits : List (String × List Int)}
    {key : String} {l : List Int} (h : (a.1 == key) = false) :
    setHits (a :: hits) key l = a :: setHits hits key l := by
  simp only [setHits, List.find?, h]
  by_cases hs : (hits.find? (fun p => p.1 == key)).isSome
  · rw [if_pos hs, if_pos hs, List.map_cons, h]
    simp
  · rw [if_neg hs, if_neg hs, List.cons_append]

lemma getHits_setHits_self (hits : List (String × List Int)) (key : String)
    (l : List Int) : getHits (setHits hits key l) key = l := by
  induction hits with
  | nil => simp [getHits, setHits, List.find?]
  | cons a hits ih =>
    by_cases ha : (a.1 == key) = true
    · simp only [setHits, List.find?, ha, Option.isSome_some, if_true, List.map_cons]
      rw [getHits_cons_eq (a := (key, l)) (by simp)]
    · rw [setHits_cons_ne (Bool.not_eq_true _ ▸ ha), getHits_cons_ne (Bool.not_eq_true _ ▸ ha)]
      exact ih

lemma find?_key_map_replace {k key : String} (hk : (k == key) = false) (l : List Int) :
    ∀ hits : List (String × List Int),
      (hits.map (fun p => if p.1 == k then (k, l) else p)).find? (fun p => p.1 == key) =
        hits.find? (fun p => p.1 == key) := by
  intro hits
  induction hits with
  | nil => rfl
  | cons b hits ihb =>
    by_cases hb : (b.1 == k) = true
    · have hbkey : (b.1 == key) = false := by
        have hbk : b.1 = k := by simpa using hb
        rw [hbk]
        exact hk
      rw [List.map_cons, if_pos hb]
      simp only [List.find?, hk, hbkey]
      exact ihb
    · rw [List.map_cons, if_neg hb]
      by_cases hbkey : (b.1 == key) = true
      · simp only [List.find?, hbkey]
      · simp only [List.find?, Bool.not_eq_true _ ▸ hbkey]
        exact ihb

lemma getHits_setHits_ne {k key : String} (hk : (k == key) = false)
    (hits : List (String × List Int)) (l : List Int) :
    getHits (setHits hits k l) key = getHits hits key := by
  unfold setHits
  by_cases hs : (hits.find? (fun p => p.1 == k)).isSome
  · rw [if_pos hs]
    unfold getHits
    rw [find?_key_map_replace hk]
  · rw [if_neg hs]
    unfold getHits
    rw [List.find?_append]
    have htail : List.find? (fun p => p.1 == key) [(k, l)] = none := by
      simp only [List.find?, hk]
    rw [htail, Option.or_none]

lemma runAllow_cons (limit : Nat) (window : Int) (hits : List (String × List Int))
    (k : String) (t : Int) (calls : List (String × Int)) :
    runAllow limit window hits ((k, t) :: calls) =
      (if (Allow limit window hits k t).1 then [(k, t)] else []) ++
        runAllow limit window (Allow limit window hits k t).2 calls := by
  simp only [runAllow]

lemma Allow_fst (limit : Nat) (window : Int) (hits : List (String × List Int))
    (k : String) (t : Int) :
    (Allow limit window hits k t).1 = (allowSlice limit window (getHits hits k) t).1 := rfl

lemma Allow_snd (limit : Nat) (window : Int) (hits : List (String × List Int))
    (k : String) (t : Int) :
    (Allow limit window hits k t).2 =
      setHits hits k (allowSlice limit window (getHits hits k) t).2 := rfl

/-- Map-level runs project to single-key runs: the admissions for `key`
are exactly the admissions of the single-slice run over the calls whose
key is `key`, because calls to other keys leave `key`'s slice alone. -/
lemma admissionsFor_eq_runAllowSlice (limit : Nat) (window : Int) :
    ∀ (calls : List (String × Int)) (hits : List (String × List Int)) (key : String),
      admissionsFor limit window hits calls key =
        runAllowSlice limit window (getHits hits key)
          ((calls.filter (fun p => p.1 == key)).map Prod.snd) := by
  intro calls
  induction calls with
  | nil => intro hits key; rfl
  | cons c calls ih =>
    obtain ⟨k, t⟩ := c
    intro hits key
    unfold admissionsFor
    rw [runAllow_cons, List.filter_append, List.map_append, Allow_fst, Allow_snd]
    have htail := ih (setHits hits k (allowSlice limit window (getHits hits k) t).2) key
    unfold admissionsFor at htail
    rw [htail]
    by_cases hk : (k == key) = true
    · have hkeq : k = key := by simpa using hk
      subst hkeq
      rw [getHits_setHits_self]
      by_cases hal : (allowSlice limit window (getHits hits k) t).1
      · simp only [hal, if_true, List.filter_cons, beq_self_eq_true, List.map_cons,
          List.filter_nil, List.map_nil, List.cons_append, List.nil_append,
          runAllowSlice_cons]
      · simp only [hal, Bool.false_eq_true, if_false, List.filter_cons, beq_self_eq_true,
          List.map_cons, List.filter_nil, List.map_nil, List.nil_append, runAllowSlice_cons]
        simp [hal, runAllowSlice_cons]
    · have hkf : (k == key) = false := Bool.not_eq_true _ ▸ hk
      rw [getHits_setHits_ne hkf]
      by_cases hal : (allowSlice limit window (getHits hits k) t).1
      · simp only [hal, if_true, List.filter_cons, hkf, Bool.false_eq_true, if_false,
          List.filter_nil, List.map_nil, List.nil_append]
      · simp only [hal, Bool.false_eq_true, if_false, List.filter_cons, hkf,
          List.filter_nil, List.map_nil, List.nil_append]

/-- The `allowMessage` is the sliding-window step at the chat constants. -/
lemma allowMessage_eq_allowSlice (times : List Int) (now : Int) :
    allowMessage times now = allowSlice rateLimitBurst rateLimitWindow times now := rfl

lemma runAllowMessage_eq_runAllowSlice :
    ∀ (ts times : List Int),
      runAllowMessage times ts = runAllowSlice rateLimitBurst rateLimitWindow times ts := by
  intro ts
  induction ts with
  | nil => intro times; rfl
  | cons t ts ih =>
    intro times
    simp only [runAllowMessage, runAllowSlice, allowMessage_eq_allowSlice, ih]

/-- C5: each call of `RateLimiter.Allow(key)` first drops the recorded
timestamps at or before `now - window`; when the remaining in-window count
has reached `limit` it returns `false` and records nothing beyond the
pruned slice, and otherwise it appends `now` and returns `true`.
Consequently, for every key, a run of calls at non-decreasing times admits
at most `limit` calls inside any half-open window `(T, T + window]` — the
window notion the pruning itself uses.  The law is stated for the
map-level limiter at arbitrary parameters (covering the auth limiter,
built with `authRateLimitCount = 10` and `authRateLimitWindow = 60`
seconds, as the last conjunct records) and for the per-client chat
limiter `allowMessage` (`rateLimitBurst = 5` per
`rateLimitWindow = 3` seconds). -/
theorem rateLimiter_allow_spec :
    (∀ (limit : Nat) (window : Int) (hits : List (String × List Int))
        (key : String) (now : Int),
      (limit ≤ ((getHits hits key).filter (fun s => decide (now - window < s))).length →
        Allow limit window hits key now =
          (false, setHits hits key
            ((getHits hits key).filter (fun s => decide (now - window < s))))) ∧
      (((getHits hits key).filter (fun s => decide (now - window < s))).length < limit →
        Allow limit window hits key now =
          (true, setHits hits key
            ((getHits hits key).filter (fun s => decide (now - window < s)) ++ [now])))) ∧
    (∀ (limit : Nat) (window : Int) (calls : List (String × Int)),
      List.Chain' (· ≤ ·) (calls.map Prod.snd) →
      ∀ (key : String) (T : Int),
        countWin T window (admissionsFor limit window [] calls key) ≤ limit) ∧
    (∀ times : List Int, List.Chain' (· ≤ ·) times →
      ∀ T : Int, countWin T rateLimitWindow (runAllowMessage [] times) ≤ rateLimitBurst) ∧
    (∀ calls : List (String × Int), List.Chain' (· ≤ ·) (calls.map Prod.snd) →
      ∀ (key : String) (T : Int),
        countWin T authRateLimitWindow
          (admissionsFor authRateLimitCount authRateLimitWindow [] calls key) ≤
            authRateLimitCount) := by
  have hlaw : ∀ (limit : Nat) (window : Int) (calls : List (String × Int)),
      List.Chain' (· ≤ ·) (calls.map Prod.snd) →
      ∀ (key : String) (T : Int),
        countWin T window (admissionsFor limit window [] calls key) ≤ limit := by
    intro limit window calls hmono key T
    rw [admissionsFor_eq_runAllowSlice]
    have hsub : List.Sublist ((calls.filter (fun p => p.1 == key)).map Prod.snd)
        (calls.map Prod.snd) := (List.filter_sublist calls).map Prod.snd
    exact runAllowSlice_window_law limit window T _ (List.Chain'.sublist hmono hsub)
  refine ⟨?_, hlaw, ?_, fun calls h key T => hlaw _ _ calls h key T⟩
  · intro limit window hits key now
    constructor
    · intro h
      unfold Allow
      rw [allowSlice_denied h]
    · intro h
      unfold Allow
      rw [allowSlice_admitted h]
  · intro times hmono T
    rw [runAllowMessage_eq_runAllowSlice]
    exact runAllowSlice_window_law rateLimitBurst rateLimitWindow T times hmono

/-- Witness for C5: a concrete denied call, a concrete admitted call, and
the window bound evaluated on a short concrete run of each limiter. -/
theorem rateLimiter_allow_spec_witness :
    Allow 1 3 [("k", [4])] "k" 5 =
      (false, setHits [("k", [4])] "k" ([4].filter (fun s => decide (5 - 3 < s)))) ∧
    Allow 1 3 [] "k" 5 =
      (true, setHits [] "k" (([] : List Int).filter (fun s => decide (5 - 3 < s)) ++ [5])) ∧
    countWin 0 3 (admissionsFor 1 3 [] [("k", 1), ("k", 2)] "k") ≤ 1 ∧
    countWin 0 rateLimitWindow (runAllowMessage [] [1, 2]) ≤ rateLimitBurst ∧
    countWin 0 authRateLimitWindow
      (admissionsFor authRateLimitCount authRateLimitWindow [] [("a", 7)] "a") ≤
        authRateLimitCount :=
  ⟨(rateLimiter_allow_spec.1 1 3 [("k", [4])] "k" 5).1 (by decide),
   (rateLimiter_allow_spec.1 1 3 [] "k" 5).2 (by decide),
   rateLimiter_allow_spec.2.1 1 3 [("k", 1), ("k", 2)]
     (by simp [List.chain'_cons]) "k" 0,
   rateLimiter_allow_spec.2.2.1 [1, 2] (by simp [List.chain'_cons]) 0,
   rateLimiter_allow_spec.2.2.2 [("a", 7)] (by simp) "a" 0⟩

end Termchat
